import Mathlib

/-!
Shallow embedding of the core of `src/daily-emailer/DailyEmailRunner.js`
(Titanium MWS unified runner v13.6): the HIST database engine
(`updateHistDatabase_`, `ingestBackfillChunk_`), the performance ledger
(`upsertAndRecomputePerformanceLog_`) and the lifecycle analytics
(`calculateAlphaAndCorrVsBenchmark_`, `pearson_`, `intersectSortedKeys_`).

Modelling conventions, used throughout:

* Calendar dates (`YYYY-MM-DD` strings in the source) are modelled as
  integers counting days.  For well-formed dates the string (lexicographic)
  comparisons used by the source agree with integer comparison, and the
  date arithmetic of `addDaysYMD_` is integer addition.  A cell that fails
  the `/^\d\x7b4\x7d-\d\x7b2\x7d-\d\x7b2\x7d$/` date test is modelled as
  `Option.none` where the source checks the pattern.
* JS numbers are modelled as exact rationals; `parseFloat` of a cell
  together with the `isFinite` guard is modelled as `Option Rat`
  (`none` = the parse is not a finite number, e.g. `"N/A"` or `""`).
* `toFixed` decimal formatting is not modelled (no claim depends on
  decimal rounding), so a formatted-and-reparsed number is the number
  itself.
* JS `Map`s and plain objects used as dictionaries are modelled as
  insertion-ordered association lists with set-replaces-in-place
  semantics, matching JS key iteration order.
* The script-properties cursor store is an association list from ticker
  to a (syntactically valid) cursor date; a `CURSOR_<t>` property that is
  absent, or whose value fails the date pattern test on line 248, is
  modelled as `none`.
* `Array.prototype.sort` (stable in the V8 runtime) is modelled by
  `List.insertionSort`; `String.localeCompare` on tickers is modelled as
  code-point order (no claim depends on the collation order).
-/

namespace MWS

/-- Leading/trailing whitespace trim on the character list of a string:
the model of `String.prototype.trim` (Lean's own `String.trim` does not
reduce in the kernel, so witnesses could not evaluate it). -/
def trimChars (l : List Char) : List Char :=
  ((l.dropWhile Char.isWhitespace).reverse.dropWhile Char.isWhitespace).reverse

/-- `String(x).trim().toUpperCase()` — the ticker normalisation applied
throughout the source. -/
def normTicker (s : String) : String :=
  String.mk ((trimChars s.data).map Char.toUpper)

/-! ## HIST database engine (`updateHistDatabase_`, lines 181–294) -/

/-- One data row of the HIST csv: the `date`, `ticker` and price columns
singled out by `buildColumnMap_`.  The price cell is carried opaquely (no
claim parses it inside the HIST engine). -/
structure HRow where
  date : Int
  ticker : String
  price : Rat
deriving DecidableEq

/-- The `"date|ticker"` composite key of the dedupe map (line 217). -/
abbrev HKey := Int × String

/-- The dedupe map `map` of lines 212–218: a JS object keyed by
`date|ticker`, i.e. an insertion-ordered association list where writing an
existing key replaces the value in place and a new key is appended. -/
abbrev KVMap := List (HKey × HRow)

/-- `map[k] = r` on a JS object: replace in place if the key is present,
else append at the end. -/
def insertKV : KVMap → HKey → HRow → KVMap
  | [], k, v => [(k, v)]
  | e :: rest, k, v => if e.1 = k then (k, v) :: rest else e :: insertKV rest k v

/-- Lines 212–218: build the dedupe map from the (already purged) rows.
Rows with an empty date or empty normalised ticker are skipped
(`if (!d || !t) return;`); an integer-modelled date is never the empty
string, so only the ticker test remains. -/
def buildMap (rows : List HRow) : KVMap :=
  rows.foldl (fun m r =>
    let t := normTicker r.ticker
    if t = "" then m else insertKV m (r.date, t) r) []

/-- The script-properties cursor store, keyed by ticker (the
`CURSOR_<ticker>` prefix is dropped). -/
abbrev Cursors := List (String × Int)

/-- `props.getProperty("CURSOR_" + t)` (line 245), combined with the date
pattern test of line 248: only a syntactically valid cursor is `some`. -/
def getCursor (cs : Cursors) (t : String) : Option Int :=
  (cs.find? (fun e => e.1 == t)).map (fun e => e.2)

/-- `props.setProperty("CURSOR_" + t, d)` (line 263). -/
def setCursor : Cursors → String → Int → Cursors
  | [], t, d => [(t, d)]
  | e :: rest, t, d => if e.1 = t then (t, d) :: rest else e :: setCursor rest t d

/-- `props.deleteProperty("CURSOR_" + t)` (lines 208, 252, 264). -/
def delCursor (cs : Cursors) (t : String) : Cursors :=
  cs.filter (fun e => e.1 != t)

/-- The run-wide constants of the backfill: `requiredStart =
addDaysYMD_(today, -MIN_BACKFILL_DAYS)` (line 230), `today`, and
`C.CHUNK_DAYS`. -/
structure HistCfg where
  requiredStart : Int
  today : Int
  chunkDays : Int
deriving DecidableEq

/-- What the per-ticker backfill body (lines 240–264) decides to do. -/
inductive ChunkDecision where
  | notNeeded
  | completeDeleteCursor
  | fetch (chunkStart chunkEnd : Int)
deriving DecidableEq

/-- Line 241: `needsYear = (!minHave || minHave > requiredStart)`. -/
def needsYear (cfg : HistCfg) (minHave : Option Int) : Bool :=
  match minHave with
  | none => true
  | some m => decide (cfg.requiredStart < m)

/-- Lines 247–250: `chunkEnd` = the valid cursor if present, else
(existing min date − 1) if data exists, else (today − 1). -/
def chunkEndOf (cfg : HistCfg) (minHave cursor : Option Int) : Int :=
  match cursor with
  | some c => c
  | none =>
    match minHave with
    | some m => m - 1
    | none => cfg.today - 1

/-- Lines 240–256: skip if no more history is needed; if
`chunkEnd < requiredStart` the ticker is complete (delete the cursor);
otherwise request `[max(requiredStart, chunkEnd − CHUNK_DAYS + 1), chunkEnd]`
(the `max` is the source's `tentativeStart < requiredStart` test). -/
def chunkDecision (cfg : HistCfg) (minHave cursor : Option Int) : ChunkDecision :=
  if needsYear cfg minHave = false then .notNeeded
  else
    let chunkEnd := chunkEndOf cfg minHave cursor
    if chunkEnd < cfg.requiredStart then .completeDeleteCursor
    else
      let tentativeStart := chunkEnd - (cfg.chunkDays - 1)
      let chunkStart :=
        if tentativeStart < cfg.requiredStart then cfg.requiredStart else tentativeStart
      .fetch chunkStart chunkEnd

/-- Lines 262–264: `nextEnd = chunkStart − 1`; persist it as the new
cursor if `nextEnd ≥ requiredStart`, else delete the cursor. -/
def nextCursor (cfg : HistCfg) (chunkStart : Int) : Option Int :=
  let nextEnd := chunkStart - 1
  if cfg.requiredStart ≤ nextEnd then some nextEnd else none

/-- `ingestBackfillChunk_` (lines 296–329) after the sheet read: the
oracle rows are the `(date, price)` pairs that passed the
`v[0] instanceof Date` and `isFinite(px)` guards; each surviving pair
with `requiredStart ≤ date < today` is upserted into the dedupe map under
the key `date|ticker`.  Returns the updated map (the source also returns
the ingested count, which is only logged). -/
def ingestBackfillChunk_ (cfg : HistCfg) (ticker : String) (vals : List (Int × Rat))
    (m : KVMap) : KVMap :=
  vals.foldl (fun acc v =>
    if cfg.requiredStart ≤ v.1 ∧ v.1 < cfg.today then
      insertKV acc (v.1, ticker) (HRow.mk v.1 ticker v.2)
    else acc) m

/-- The per-ticker body of the backfill loop (lines 240–264), given the
ticker's precomputed min coverage `minHave`, its persisted cursor, and the
range oracle (`GOOGLEFINANCE` range fetch) for this ticker.  Returns the
updated dedupe map, the new cursor state, and the requested chunk range
(`none` when no fetch happened). -/
def processTicker (cfg : HistCfg) (t : String) (orc : Int → Int → List (Int × Rat))
    (minHave cursor : Option Int) (m : KVMap) :
    KVMap × Option Int × Option (Int × Int) :=
  match chunkDecision cfg minHave cursor with
  | .notNeeded => (m, cursor, none)
  | .completeDeleteCursor => (m, none, none)
  | .fetch s e => (ingestBackfillChunk_ cfg t (orc s e) m, nextCursor cfg s, some (s, e))

/-- Lines 221–228: `bounds[t].min`, the smallest date among the dedupe
map's keys for ticker `t` (computed once, before the backfill loop). -/
def minDateFor (m : KVMap) (t : String) : Option Int :=
  (((m.map (fun e => e.1)).filter (fun k => k.2 == t)).map (fun k => k.1)).min?

/-- The external state and oracles of one `updateHistDatabase_` run:
the parsed HIST rows, the persisted cursor store, the range-fetch oracle,
the live price per ticker (`livePrices[t] || 0`, line 271), and the
wall-clock budget test `Date.now() - startTime > C.RUNTIME_BUDGET_MS`
evaluated at the start of the i-th ticker's iteration (line 238). -/
structure HistInput where
  rows : List HRow
  cursors : Cursors
  oracle : String → Int → Int → List (Int × Rat)
  live : String → Rat
  overBudget : Nat → Bool

/-- The mutable state threaded through the backfill loop: the dedupe map,
the cursor store, the `unfinishedTickers` diagnostic, and (for the
specification) the chunk ranges requested so far. -/
structure LoopAcc where
  map : KVMap
  cursors : Cursors
  unfinished : List String
  requests : List (String × Int × Int)

/-- One iteration of `for (const t of requiredTickers)` (lines 237–265):
the budget test of line 238 runs first and, when it fires, only records
the ticker as unfinished. -/
def loopStep (cfg : HistCfg) (bounds : String → Option Int) (inp : HistInput)
    (acc : LoopAcc) (p : Nat × String) : LoopAcc :=
  if inp.overBudget p.1 then
    { acc with unfinished := acc.unfinished ++ [p.2] }
  else
    let t := p.2
    let r := processTicker cfg t (inp.oracle t) (bounds t) (getCursor acc.cursors t) acc.map
    { map := r.1,
      cursors :=
        match r.2.1 with
        | some d => setCursor acc.cursors t d
        | none => delCursor acc.cursors t,
      unfinished := acc.unfinished,
      requests :=
        match r.2.2 with
        | some se => acc.requests ++ [(t, se.1, se.2)]
        | none => acc.requests }

/-- Line 197–199: the set of normalised tickers present in HIST. -/
def histExisting (inp : HistInput) : List String :=
  ((inp.rows.map (fun r => normTicker r.ticker)).filter (fun t => t != "")).dedup

/-- Lines 201–202: the existing tickers not in the required set. -/
def histPurged (required : List String) (inp : HistInput) : List String :=
  (histExisting inp).filter (fun t => !(required.contains t))

/-- Lines 205–208: when anything is purged, keep only rows whose
normalised ticker is required (the filter is skipped when nothing is
purged, exactly as in the source's `if (purgedTickers.length)` guard). -/
def histRows (required : List String) (inp : HistInput) : List HRow :=
  if (histPurged required inp).isEmpty then inp.rows
  else inp.rows.filter (fun r => required.contains (normTicker r.ticker))

/-- Line 208: the purged tickers' cursors are deleted. -/
def histCursors0 (required : List String) (inp : HistInput) : Cursors :=
  (histPurged required inp).foldl delCursor inp.cursors

/-- The dedupe map as of line 218. -/
def histMap0 (required : List String) (inp : HistInput) : KVMap :=
  buildMap (histRows required inp)

/-- The state after the whole backfill loop (lines 237–265). -/
def histAcc (cfg : HistCfg) (required : List String) (inp : HistInput) : LoopAcc :=
  (required.enum).foldl (loopStep cfg (minDateFor (histMap0 required inp)) inp)
    (LoopAcc.mk (histMap0 required inp) (histCursors0 required inp) [] [])

/-- Lines 270–281: merge one live quote per required ticker into the map
under the key `today|ticker`, skipped when the price is not positive. -/
def histMap2 (cfg : HistCfg) (required : List String) (inp : HistInput) : KVMap :=
  required.foldl (fun m t =>
    let p := inp.live t
    if 0 < p then insertKV m (cfg.today, t) (HRow.mk cfg.today t p) else m)
    (histAcc cfg required inp).map

/-- Lines 283–289: the final sort key, `(date, ticker.toUpperCase())` in
code-point order. -/
def rowLeB (a b : HRow) : Bool :=
  decide (a.date < b.date) ||
    (decide (a.date = b.date) &&
      listCharLe (a.ticker.data.map Char.toUpper) (b.ticker.data.map Char.toUpper))
where
  /-- Code-point lexicographic `≤` on character lists. -/
  listCharLe : List Char → List Char → Bool
    | [], _ => true
    | _ :: _, [] => false
    | a :: as, b :: bs =>
      decide (a.toNat < b.toNat) || (decide (a.toNat = b.toNat) && listCharLe as bs)

/-- What one `updateHistDatabase_` run produces: the re-emitted HIST rows
(line 291), the cursor store as left in script properties, and the
`purgedTickers` / `unfinishedTickers` diagnostics of line 293 (plus the
chunk ranges requested from the oracle, for the specification). -/
structure HistOutput where
  finalRows : List HRow
  cursors : Cursors
  purgedTickers : List String
  unfinished : List String
  requests : List (String × Int × Int)

/-- `updateHistDatabase_` (lines 181–294): purge, dedupe, backfill one
chunk per ticker under a wall-clock budget, merge live quotes, and emit
the map's rows sorted by `(date, ticker)`. -/
def updateHistDatabase_ (cfg : HistCfg) (required : List String) (inp : HistInput) :
    HistOutput :=
  HistOutput.mk
    (List.insertionSort (fun a b => rowLeB a b = true)
      ((histMap2 cfg required inp).map (fun e => e.2)))
    (histAcc cfg required inp).cursors
    (histPurged required inp)
    (histAcc cfg required inp).unfinished
    (histAcc cfg required inp).requests

/-! ## Concrete inputs for the specification's backfill scenarios

Day numbering for the scenarios: `2025-01-01` is day 1, so `today =
2025-01-10` is day 10 and `requiredStart = 2025-01-01` is day 1. -/

/-- The ascending list of days `s..e`. -/
def intRange (s e : Int) : List Int :=
  (List.range (e + 1 - s).toNat).map (fun k => s + k)

/-- requiredStart = 2025-01-01, today = 2025-01-10, chunk size 5. -/
def scenario1Cfg : HistCfg := HistCfg.mk 1 10 5

/-- A range oracle that returns one price row per requested day. -/
def scenario1Oracle : String → Int → Int → List (Int × Rat) :=
  fun _ s e => (intRange s e).map (fun d => (d, 1))

/-- Scenario 1, invocation 1: no data, no cursor, no live quote, no budget
pressure. -/
def scenario1Inp1 : HistInput :=
  HistInput.mk [] [] scenario1Oracle (fun _ => 0) (fun _ => false)

def scenario1Out1 : HistOutput := updateHistDatabase_ scenario1Cfg ["T"] scenario1Inp1

/-- Scenario 1, invocation 2: resumes from the state invocation 1 left. -/
def scenario1Inp2 : HistInput :=
  HistInput.mk scenario1Out1.finalRows scenario1Out1.cursors scenario1Oracle
    (fun _ => 0) (fun _ => false)

def scenario1Out2 : HistOutput := updateHistDatabase_ scenario1Cfg ["T"] scenario1Inp2

/-- An empty-fetch scenario: the store holds one row for `T` on day 9
(so more history is needed), there is no cursor, and every range fetch
fails (returns nothing). -/
def emptyFetchInp1 : HistInput :=
  HistInput.mk [HRow.mk 9 "T" 1] [] (fun _ _ _ => []) (fun _ => 0) (fun _ => false)

def emptyFetchOut1 : HistOutput := updateHistDatabase_ scenario1Cfg ["T"] emptyFetchInp1

/-- The invocation after the failed fetch, with fetches still failing. -/
def emptyFetchInp2 : HistInput :=
  HistInput.mk emptyFetchOut1.finalRows emptyFetchOut1.cursors (fun _ _ _ => [])
    (fun _ => 0) (fun _ => false)

def emptyFetchOut2 : HistOutput := updateHistDatabase_ scenario1Cfg ["T"] emptyFetchInp2

/-- A failed FINAL chunk: the store holds day 3 for `T` (min coverage 3),
the persisted cursor is day 2, requiredStart is day 1, and every range
fetch fails.  The chunk [1, 2] is the last one needed. -/
def retryInp1 : HistInput :=
  HistInput.mk [HRow.mk 3 "T" 1] [("T", 2)] (fun _ _ _ => []) (fun _ => 0) (fun _ => false)

def retryOut1 : HistOutput := updateHistDatabase_ scenario1Cfg ["T"] retryInp1

/-- The invocation after the failed final chunk, with fetches still
failing. -/
def retryInp2 : HistInput :=
  HistInput.mk retryOut1.finalRows retryOut1.cursors (fun _ _ _ => [])
    (fun _ => 0) (fun _ => false)

def retryOut2 : HistOutput := updateHistDatabase_ scenario1Cfg ["T"] retryInp2

/-! ## Performance ledger (`upsertAndRecomputePerformanceLog_`, lines 612–690)

A ledger row holds the cells of one csv line under the header
`Date, PortfolioValue, Price_<b>…, PortfolioPct, Pct_<b>…, Diff_<b>…`
(`buildPerfLogHeader_`).  Every cell except the date models
`parseFloat(cell)` with its `isFinite` guard, so `none` stands for any
non-numeric cell (`"N/A"`, `""`, …); the date cell models the
`/^\d\x7b4\x7d-\d\x7b2\x7d-\d\x7b2\x7d$/` test, `none` being a malformed
date.  The three variable-width column groups are `bench`, `pcts` and
`diffs`, each of the length `n = benches.length`. -/

structure LRow where
  date : Option Int
  pv : Option Rat
  bench : List (Option Rat)
  portPct : Option Rat
  pcts : List (Option Rat)
  diffs : List (Option Rat)
deriving DecidableEq

/-- `normalizeRowWidth_` (lines 882–887) on a structured ledger row:
each variable-width group is padded with empty cells, or truncated, to
the expected width `n`. -/
def normalizeRowWidth_ (n : Nat) (r : LRow) : LRow :=
  { r with
    bench := List.takeD n r.bench none,
    pcts := List.takeD n r.pcts none,
    diffs := List.takeD n r.diffs none }

/-- Lines 623–639: normalise and keep rows with a well-formed date, drop
any existing row for today's date, append the fresh row (date, portfolio
value, each benchmark's raw price, empty computed cells), and sort by
date (the stable V8 sort under `localeCompare`, which on well-formed
dates is integer order). -/
def ledgerData (n : Nat) (dateStr : Int) (portfolioVal : Rat)
    (benchPrices : List Rat) (old : List LRow) : List LRow :=
  let data0 := (old.map (normalizeRowWidth_ n)).filter (fun r => r.date.isSome)
  let data1 := data0.filter (fun r => r.date != some dateStr)
  let newRow : LRow :=
    LRow.mk (some dateStr) (some portfolioVal) (List.takeD n (benchPrices.map some) none)
      none (List.replicate n none) (List.replicate n none)
  List.insertionSort (fun a b => (a.date.getD 0 ≤ b.date.getD 0)) (data1 ++ [newRow])

/-- Lines 641–643: the base row index is the first row matching the
configured `chart_start_date` when that date is well-formed and present,
else 0.  `chartStart = none` models a missing or malformed
`chart_start_date`. -/
def ledgerBaseIndex (chartStart : Option Int) (data : List LRow) : Nat :=
  match chartStart with
  | some cs =>
    match data.findIdx? (fun r => r.date == some cs) with
    | some i => i
    | none => 0
  | none => 0

/-- Lines 656–678: recompute one row's percentage and diff cells against
the base row.  `pPort` (resp. `pB`) is the rebased return when the raw
cell is a finite positive number, else not-a-number (`none`); rows
strictly before the base row get `"N/A"` in every computed cell.  The
diff cell re-reads the just-written pct cell, exactly as the source's
`parseFloat(row[pctStartCol + i])` does. -/
def recomputeRow (n : Nat) (baseIndex : Nat) (basePV : Rat) (baseB : List Rat)
    (ri : Nat) (r : LRow) : LRow :=
  let pPort : Option Rat :=
    match r.pv with
    | some v => if 0 < v then some (v / basePV - 1) else none
    | none => none
  let portPct : Option Rat := if ri < baseIndex then none else pPort
  let pcts : List (Option Rat) := (List.range n).map (fun i =>
    let pB : Option Rat :=
      match r.bench.getD i none with
      | some px => if 0 < px then some (px / baseB.getD i 0 - 1) else none
      | none => none
    if ri < baseIndex then none else pB)
  let diffs : List (Option Rat) := (List.range n).map (fun i =>
    if ri < baseIndex then none
    else
      match pPort, pcts.getD i none with
      | some a, some b => some (a - b)
      | _, _ => none)
  LRow.mk r.date r.pv (List.takeD n r.bench none) portPct pcts diffs

/-- `List.mapIdx` with an explicit start index (so that `get?` facts
about it are provable by a one-line induction). -/
def mapIdxFrom {α β : Type} (f : Nat → α → β) : Nat → List α → List β
  | _, [] => []
  | i, a :: l => f i a :: mapIdxFrom f (i + 1) l

/-- `upsertAndRecomputePerformanceLog_` (lines 612–681).  The final
`file.setContent` is the `.ok` payload; every `throw` before it is an
`.error`, in which case the persisted csv is untouched (`ledgerFileAfter`).
The source indexes `data[baseIndex]` directly; a missing row there can
only arise from the empty-ledger case guarded by line 644, so both fold
into the same error. -/
def upsertAndRecomputePerformanceLog_ (n : Nat) (dateStr : Int) (portfolioVal : Rat)
    (benchPrices : List Rat) (chartStart : Option Int) (old : List LRow) :
    Except String (List LRow) :=
  let data := ledgerData n dateStr portfolioVal benchPrices old
  let baseIndex := ledgerBaseIndex chartStart data
  match data.get? baseIndex with
  | none => .error "Perf log has no rows after upsert."
  | some baseRow =>
    match baseRow.pv with
    | none => .error "Perf log base portfolio value invalid."
    | some basePV =>
      if basePV ≤ 0 then .error "Perf log base portfolio value invalid."
      else
        let baseBOpt := (List.range n).map (fun i => baseRow.bench.getD i none)
        if baseBOpt.any (fun o => o.isNone || decide (o.getD 0 ≤ 0)) then
          .error "Perf log base benchmark price invalid."
        else
          .ok (mapIdxFrom
            (recomputeRow n baseIndex basePV (baseBOpt.map (fun o => o.getD 0))) 0 data)

/-- The ledger csv as persisted after the update: the recomputed table on
success, the previous content untouched on any error (the source writes
the file only on the last line of the function). -/
def ledgerFileAfter (n : Nat) (dateStr : Int) (portfolioVal : Rat)
    (benchPrices : List Rat) (chartStart : Option Int) (old : List LRow) : List LRow :=
  match upsertAndRecomputePerformanceLog_ n dateStr portfolioVal benchPrices chartStart old with
  | .ok out => out
  | .error _ => old

/-! ## Lifecycle analytics (`calculateAlphaAndCorrVsBenchmark_`, lines 429–500,
`intersectSortedKeys_`, `pearson_`) -/

/-- One parsed HIST row as seen by the analytics: date, raw ticker cell,
and `parseFloat(price)` with its `isFinite` guard. -/
structure PRow where
  date : Int
  ticker : String
  price : Option Rat
deriving DecidableEq

/-- A JS `Map` from date to price: insertion-ordered association list,
`set` replaces in place. -/
abbrev Series := List (Int × Rat)

/-- `Map.prototype.set`. -/
def setK : Series → Int → Rat → Series
  | [], d, p => [(d, p)]
  | e :: rest, d, p => if e.1 = d then (d, p) :: rest else e :: setK rest d p

/-- `Map.prototype.get` (`undefined` = `none`). -/
def lookupK (m : Series) (d : Int) : Option Rat :=
  (m.find? (fun e => e.1 == d)).map (fun e => e.2)

/-- Lines 441–451: the per-date price series for one normalised symbol,
restricted to dates `≥ startStr` and to finite prices.  The source fills
`tMap` and `bMap` in a single pass with two independent `if`s; each map
depends only on the rows matching its own symbol, so one pass per symbol
builds the same maps. -/
def buildSeries (rows : List PRow) (start : Int) (sym : String) : Series :=
  rows.foldl (fun m r =>
    if r.date < start then m
    else
      match r.price with
      | none => m
      | some px => if normTicker r.ticker = sym then setK m r.date px else m) []

/-- `intersectSortedKeys_` (lines 918–923): the keys of `m1` that are
also keys of `m2`, sorted ascending (string sort on well-formed dates =
integer sort). -/
def intersectSortedKeys_ (m1 m2 : Series) : List Int :=
  List.insertionSort (fun a b => a ≤ b)
    ((m1.map (fun e => e.1)).filter (fun d => (lookupK m2 d).isSome))

/-- Lines 469–480: the paired day-over-day simple returns over
consecutive aligned dates; a pair is skipped when any of the four looked
up prices is missing (the source's `isFinite` guard — with both dates in
both maps the lookups in fact always succeed). -/
def retPairs (tMap bMap : Series) (dates : List Int) : List (Rat × Rat) :=
  (dates.zip dates.tail).filterMap (fun pr =>
    match lookupK tMap pr.1, lookupK tMap pr.2, lookupK bMap pr.1, lookupK bMap pr.2 with
    | some tp, some tc, some bp, some bc => some ((tc / tp - 1), (bc / bp - 1))
    | _, _, _, _ => none)

/-- `pearson_` (lines 925–940).  The source returns
`num / Math.sqrt(den2)`, and `NaN` when `n < 2` or the denominator is
zero; since `den2 ≥ 0` always (Cauchy–Schwarz), `Math.sqrt(den2) === 0`
iff `den2 === 0`.  The square root leaves `ℚ`, so the model returns the
exact pair `(num, den2)`: the JS result is a finite number iff this is
`some`, and its value is `num / √den2`. -/
def pearson_ (x y : List Rat) : Option (Rat × Rat) :=
  let n := min x.length y.length
  if n < 2 then none
  else
    let xs := x.take n
    let ys := y.take n
    let sumX := xs.sum
    let sumY := ys.sum
    let sumXY := ((xs.zip ys).map (fun p => p.1 * p.2)).sum
    let sumX2 := (xs.map (fun a => a * a)).sum
    let sumY2 := (ys.map (fun a => a * a)).sum
    let num := (n : Rat) * sumXY - sumX * sumY
    let den2 := ((n : Rat) * sumX2 - sumX * sumX) * ((n : Rat) * sumY2 - sumY * sumY)
    if den2 = 0 then none else some (num, den2)

/-- The structured outcome of `calculateAlphaAndCorrVsBenchmark_`:
`badDate`/`noData`/`gap` are the `ok:false` error results; `ok` carries
the alpha and the correlation (`none` when not computed or not finite —
rendered `"N/A"` on line 489). -/
inductive AlphaResult where
  | badDate
  | noData
  | gap
  | ok (alpha : Rat) (corr : Option (Rat × Rat))
deriving DecidableEq

/-- `calculateAlphaAndCorrVsBenchmark_` (lines 429–500).  `startStr =
none` models an `entered_stage_date` failing the date pattern test of
line 434.  `minCorrReturns` is `C.MIN_CORR_RETURNS` (default 6).  The
lookups at the window edges always succeed (the edges are intersection
keys); `getD 0` keeps the model total. -/
def calculateAlphaAndCorrVsBenchmark_ (minCorrReturns : Nat) (rows : List PRow)
    (ticker bench : String) (startStr : Option Int) : AlphaResult :=
  match startStr with
  | none => .badDate
  | some start =>
    let tMap := buildSeries rows start (normTicker ticker)
    let bMap := buildSeries rows start (normTicker bench)
    if tMap.length < 2 ∨ bMap.length < 2 then .noData
    else
      let dates := intersectSortedKeys_ tMap bMap
      if dates.length < 2 then .gap
      else
        let d0 := dates.getD 0 0
        let dN := dates.getD (dates.length - 1) 0
        let t0 := (lookupK tMap d0).getD 0
        let tN := (lookupK tMap dN).getD 0
        let b0 := (lookupK bMap d0).getD 0
        let bN := (lookupK bMap dN).getD 0
        let prs := retPairs tMap bMap dates
        let corr :=
          if minCorrReturns ≤ prs.length then
            pearson_ (prs.map (fun p => p.1)) (prs.map (fun p => p.2))
          else none
        .ok ((tN / t0 - 1) - (bN / b0 - 1)) corr

/-- Scenario 2 of the specification: ticker `X` activated on day 1 with
prices 100, 110, 121 on days 1, 2, 3, baseline `B` with prices 50, 55, 55
on the same days. -/
def scenario8Rows : List PRow :=
  [PRow.mk 1 "X" (some 100), PRow.mk 1 "B" (some 50),
   PRow.mk 2 "X" (some 110), PRow.mk 2 "B" (some 55),
   PRow.mk 3 "X" (some 121), PRow.mk 3 "B" (some 55)]

/-- The base row of the ledger is invalid in the sense of lines 646–650:
its portfolio value cell is non-numeric or non-positive, or one of its
first `n` benchmark price cells is non-numeric or non-positive. -/
def invalidBase (n : Nat) (r : LRow) : Prop :=
  (∀ v, r.pv = some v → v ≤ 0) ∨ ∃ i, i < n ∧ ∀ w, r.bench.getD i none = some w → w ≤ 0

/-- A concrete successful ledger run: one benchmark, empty previous
ledger, today = day 5, portfolio value 100, benchmark price 50. -/
def c4wOut : List LRow := ledgerFileAfter 1 5 100 [50] none []

/-- Well-formedness of the dedupe map with respect to the required
ticker set: every entry's key ticker is required, and the stored row
agrees with its key (`date` equals the key date, normalised ticker equals
the key ticker); and the keys are pairwise distinct. -/
def MapOK (required : List String) (m : KVMap) : Prop :=
  (∀ e ∈ m, e.1.2 ∈ required ∧ e.2.date = e.1.1 ∧ normTicker e.2.ticker = e.1.2) ∧
    (m.map Prod.fst).Nodup

/-- The alpha the specification describes: over the aligned (intersected,
ascending-sorted) date window, (last/first − 1) of the ticker series
minus (last/first − 1) of the baseline series, each total return computed
independently over its own series. -/
def alphaOf (tMap bMap : Series) : Rat :=
  let dates := intersectSortedKeys_ tMap bMap
  let d0 := dates.getD 0 0
  let dN := dates.getD (dates.length - 1) 0
  ((lookupK tMap dN).getD 0 / (lookupK tMap d0).getD 0 - 1) -
    ((lookupK bMap dN).getD 0 / (lookupK bMap d0).getD 0 - 1)

/-- The correlation field accompanying the alpha: the Pearson result on
the paired consecutive returns, computed only when there are at least
`minCorrReturns` pairs. -/
def corrOf (minCorrReturns : Nat) (tMap bMap : Series) : Option (Rat × Rat) :=
  let dates := intersectSortedKeys_ tMap bMap
  let prs := retPairs tMap bMap dates
  if minCorrReturns ≤ prs.length then
    pearson_ (prs.map (fun p => p.1)) (prs.map (fun p => p.2))
  else none

/-- Scenario 4 of the specification: the store holds tickers A, B and C,
ticker B also has a persisted cursor, and the required set is now only
A and C.  Coverage is already complete (min date 1 = requiredStart), so
no fetches happen. -/
def purgeCfg : HistCfg := HistCfg.mk 1 2 5

def purgeInp : HistInput :=
  HistInput.mk [HRow.mk 1 "A" 1, HRow.mk 1 "B" 1, HRow.mk 1 "C" 1] [("B", 3)]
    (fun _ _ _ => []) (fun _ => 0) (fun _ => false)

/-- A store with a duplicated (date, ticker) row, for the dedupe
invariant. -/
def dupInp : HistInput :=
  HistInput.mk [HRow.mk 1 "A" 1, HRow.mk 1 "A" 2] [] (fun _ _ _ => [])
    (fun _ => 0) (fun _ => false)

/-- An input whose wall-clock budget is already exhausted before the
first ticker, while ticker A needs no history at all. -/
def budgetInp : HistInput :=
  HistInput.mk [HRow.mk 1 "A" 1] [] (fun _ _ _ => []) (fun _ => 0) (fun _ => true)

/-! ## Theorems -/

/-- `get?` of `mapIdxFrom`: the element at position `j` is `f` applied at
index `i + j`. -/
theorem get?_mapIdxFrom {α β : Type} (f : Nat → α → β) (i j : Nat) (l : List α) :
    (mapIdxFrom f i l).get? j = (l.get? j).map (f (i + j)) := by
  induction l generalizing i j with
  | nil => simp [mapIdxFrom]
  | cons a l ih =>
    cases j with
    | zero => simp [mapIdxFrom]
    | succ j =>
      simp only [mapIdxFrom, List.get?_cons_succ]
      rw [ih (i + 1) j]
      have harith : i + 1 + j = i + (j + 1) := by omega
      rw [harith]

/-- `getD` over a mapped range evaluates the function at the index. -/
theorem getD_range_map {β : Type} (g : Nat → β) (n i : Nat) (d : β) (h : i < n) :
    ((List.range n).map g).getD i d = g i := by
  have hg : ((List.range n).map g).get? i = some (g i) := by
    rw [List.get?_map, List.get?_range h]
    rfl
  rw [show ((List.range n).map g).getD i d = (((List.range n).map g).get? i).getD d from rfl,
    hg]
  rfl

/-- Invariant preservation through `List.foldl`. -/
theorem foldl_induction {α β : Type} (f : β → α → β) (l : List α) (init : β)
    (I : β → Prop) (h0 : I init) (hstep : ∀ b a, a ∈ l → I b → I (f b a)) :
    I (l.foldl f init) := by
  induction l generalizing init with
  | nil => exact h0
  | cons a l ih =>
    exact ih (f init a) (hstep init a (List.mem_cons_self a l) h0)
      (fun b x hx hb => hstep b x (List.mem_cons_of_mem a hx) hb)

/-- Every entry of `insertKV m k v` is either an old entry or `(k, v)`. -/
theorem mem_insertKV {m : KVMap} {k : HKey} {v : HRow} {e : HKey × HRow}
    (h : e ∈ insertKV m k v) : e ∈ m ∨ e = (k, v) := by
  induction m with
  | nil =>
    simp only [insertKV, List.mem_singleton] at h
    exact Or.inr h
  | cons e0 m ih =>
    by_cases hk : e0.1 = k
    · rw [insertKV, if_pos hk] at h
      rcases List.mem_cons.mp h with h | h
      · exact Or.inr h
      · exact Or.inl (List.mem_cons_of_mem _ h)
    · rw [insertKV, if_neg hk] at h
      rcases List.mem_cons.mp h with h | h
      · exact Or.inl (h ▸ List.mem_cons_self e0 m)
      · rcases ih h with h1 | h1
        · exact Or.inl (List.mem_cons_of_mem _ h1)
        · exact Or.inr h1

/-- The keys after `insertKV` are the old keys plus possibly `k`. -/
theorem mem_keys_insertKV {m : KVMap} {k k2 : HKey} {v : HRow} :
    k2 ∈ (insertKV m k v).map Prod.fst ↔ k2 ∈ m.map Prod.fst ∨ k2 = k := by
  induction m with
  | nil => simp [insertKV]
  | cons e0 m ih =>
    by_cases hk : e0.1 = k
    · rw [insertKV, if_pos hk]
      simp only [List.map_cons, List.mem_cons, hk]
      tauto
    · rw [insertKV, if_neg hk]
      simp only [List.map_cons, List.mem_cons, ih]
      tauto

/-- `insertKV` preserves distinctness of keys. -/
theorem nodup_keys_insertKV {m : KVMap} {k : HKey} {v : HRow}
    (h : (m.map Prod.fst).Nodup) : ((insertKV m k v).map Prod.fst).Nodup := by
  induction m with
  | nil => simp [insertKV]
  | cons e0 m ih =>
    simp only [List.map_cons, List.nodup_cons] at h
    by_cases hk : e0.1 = k
    · rw [insertKV, if_pos hk]
      simp only [List.map_cons, List.nodup_cons]
      exact ⟨hk ▸ h.1, h.2⟩
    · rw [insertKV, if_neg hk]
      simp only [List.map_cons, List.nodup_cons]
      refine ⟨?_, ih h.2⟩
      rw [mem_keys_insertKV]
      push_neg
      exact ⟨h.1, hk⟩

/-- `insertKV` with a required, self-normalised key and a matching row
preserves `MapOK`. -/
theorem mapOK_insertKV {required : List String} {m : KVMap} {k : HKey} {v : HRow}
    (hm : MapOK required m) (hk : k.2 ∈ required)
    (hv : v.date = k.1 ∧ normTicker v.ticker = k.2) :
    MapOK required (insertKV m k v) := by
  refine ⟨?_, nodup_keys_insertKV hm.2⟩
  intro e he
  rcases mem_insertKV he with h | h
  · exact hm.1 e h
  · subst h
    exact ⟨hk, hv⟩

/-- `ingestBackfillChunk_` preserves `MapOK` when the ticker is required
and self-normalised. -/
theorem mapOK_ingestBackfillChunk {required : List String} {cfg : HistCfg} {t : String}
    {vals : List (Int × Rat)} {m : KVMap}
    (hm : MapOK required m) (ht : t ∈ required) (hnt : normTicker t = t) :
    MapOK required (ingestBackfillChunk_ cfg t vals m) := by
  unfold ingestBackfillChunk_
  refine foldl_induction _ vals m (MapOK required) hm ?_
  intro b a _ hb
  by_cases hc : cfg.requiredStart ≤ a.1 ∧ a.1 < cfg.today
  · rw [if_pos hc]
    exact mapOK_insertKV hb ht ⟨rfl, hnt⟩
  · rw [if_neg hc]
    exact hb

/-- `processTicker` preserves `MapOK` of the dedupe map. -/
theorem mapOK_processTicker {required : List String} {cfg : HistCfg} {t : String}
    {orc : Int → Int → List (Int × Rat)} {minHave cursor : Option Int} {m : KVMap}
    (hm : MapOK required m) (ht : t ∈ required) (hnt : normTicker t = t) :
    MapOK required (processTicker cfg t orc minHave cursor m).1 := by
  unfold processTicker
  cases chunkDecision cfg minHave cursor with
  | notNeeded => exact hm
  | completeDeleteCursor => exact hm
  | fetch s e => exact mapOK_ingestBackfillChunk hm ht hnt

/-- Every entry of `buildMap rows` stores one of the rows under its
`(date, normalised ticker)` key, the ticker being nonempty. -/
theorem mem_buildMap {rows : List HRow} {e : HKey × HRow} (h : e ∈ buildMap rows) :
    ∃ r ∈ rows, e = ((r.date, normTicker r.ticker), r) ∧ normTicker r.ticker ≠ "" := by
  unfold buildMap at h
  refine foldl_induction _ rows ([] : KVMap)
    (fun m => ∀ e2 ∈ m, ∃ r ∈ rows, e2 = ((r.date, normTicker r.ticker), r) ∧
      normTicker r.ticker ≠ "") (by simp) ?_ e h
  intro b a ha hb e2 he2
  dsimp only at he2
  by_cases ht : normTicker a.ticker = ""
  · rw [if_pos ht] at he2
    exact hb e2 he2
  · rw [if_neg ht] at he2
    rcases mem_insertKV he2 with h2 | h2
    · exact hb e2 h2
    · exact ⟨a, ha, h2, ht⟩

/-- The keys of `buildMap rows` are pairwise distinct. -/
theorem nodup_keys_buildMap (rows : List HRow) :
    ((buildMap rows).map Prod.fst).Nodup := by
  unfold buildMap
  refine foldl_induction _ rows ([] : KVMap) (fun m => (m.map Prod.fst).Nodup)
    (by simp) ?_
  intro b a _ hb
  dsimp only
  by_cases ht : normTicker a.ticker = ""
  · rw [if_pos ht]
    exact hb
  · rw [if_neg ht]
    exact nodup_keys_insertKV hb

/-- Second components of `enumFrom` entries are list members. -/
theorem snd_mem_of_mem_enumFrom {α : Type} {p : Nat × α} {l : List α} :
    ∀ {n : Nat}, p ∈ List.enumFrom n l → p.2 ∈ l := by
  induction l with
  | nil => intro n h; simp [List.enumFrom] at h
  | cons a l ih =>
    intro n h
    rcases List.mem_cons.mp h with h | h
    · rw [h]
      exact List.mem_cons_self a l
    · exact List.mem_cons_of_mem a (ih h)

/-- `get?` positions are `enumFrom` members. -/
theorem mem_enumFrom_of_get? {α : Type} {l : List α} :
    ∀ {i n : Nat} {x : α}, l.get? i = some x → (n + i, x) ∈ List.enumFrom n l := by
  induction l with
  | nil => intro i n x h; simp at h
  | cons a l ih =>
    intro i n x h
    cases i with
    | zero =>
      simp only [List.get?_cons_zero, Option.some.injEq] at h
      subst h
      simp [List.enumFrom]
    | succ i =>
      simp only [List.get?_cons_succ] at h
      have hmem := ih (n := n + 1) h
      have harith : n + 1 + i = n + (i + 1) := by omega
      rw [harith] at hmem
      exact List.mem_cons_of_mem _ hmem

/-- `getCursor` on a cons cell. -/
theorem getCursor_cons (e : String × Int) (cs : Cursors) (t : String) :
    getCursor (e :: cs) t = if e.1 = t then some e.2 else getCursor cs t := by
  by_cases h : e.1 = t
  · simp [getCursor, List.find?_cons, h]
  · simp [getCursor, List.find?_cons, h]

/-- `delCursor` on a cons cell. -/
theorem delCursor_cons (e : String × Int) (cs : Cursors) (t2 : String) :
    delCursor (e :: cs) t2 =
      if e.1 = t2 then delCursor cs t2 else e :: delCursor cs t2 := by
  simp only [delCursor, List.filter_cons]
  by_cases h : e.1 = t2
  · simp [h]
  · simp [h]

/-- `setCursor` on a cons cell. -/
theorem setCursor_cons (e : String × Int) (cs : Cursors) (t2 : String) (d : Int) :
    setCursor (e :: cs) t2 d =
      if e.1 = t2 then (t2, d) :: cs else e :: setCursor cs t2 d := rfl

/-- `getCursor` after deleting the same ticker. -/
theorem getCursor_delCursor_self (cs : Cursors) (t : String) :
    getCursor (delCursor cs t) t = none := by
  induction cs with
  | nil => rfl
  | cons e cs ih =>
    rw [delCursor_cons]
    by_cases he : e.1 = t
    · rw [if_pos he]
      exact ih
    · rw [if_neg he, getCursor_cons, if_neg he]
      exact ih

/-- `getCursor` after deleting another ticker. -/
theorem getCursor_delCursor_ne {cs : Cursors} {t t2 : String} (h : t ≠ t2) :
    getCursor (delCursor cs t2) t = getCursor cs t := by
  induction cs with
  | nil => rfl
  | cons e cs ih =>
    rw [delCursor_cons]
    by_cases he : e.1 = t2
    · rw [if_pos he, ih, getCursor_cons, if_neg (by rw [he]; exact Ne.symm h)]
    · rw [if_neg he, getCursor_cons, getCursor_cons]
      by_cases het : e.1 = t
      · rw [if_pos het, if_pos het]
      · rw [if_neg het, if_neg het, ih]

/-- `getCursor` after setting another ticker. -/
theorem getCursor_setCursor_ne {cs : Cursors} {t t2 : String} {d : Int} (h : t ≠ t2) :
    getCursor (setCursor cs t2 d) t = getCursor cs t := by
  induction cs with
  | nil =>
    rw [show setCursor [] t2 d = [(t2, d)] from rfl, getCursor_cons,
      if_neg (show ¬ (t2, d).1 = t from Ne.symm h)]
  | cons e cs ih =>
    rw [setCursor_cons]
    by_cases he : e.1 = t2
    · rw [if_pos he, getCursor_cons, getCursor_cons,
        if_neg (show ¬ (t2, d).1 = t from Ne.symm h),
        if_neg (by rw [he]; exact Ne.symm h)]
    · rw [if_neg he, getCursor_cons, getCursor_cons]
      by_cases het : e.1 = t
      · rw [if_pos het, if_pos het]
      · rw [if_neg het, if_neg het, ih]

/-- Folding deletions never resurrects an absent cursor. -/
theorem getCursor_foldl_delCursor_none {l : List String} {cs : Cursors} {t : String}
    (h : getCursor cs t = none) : getCursor (l.foldl delCursor cs) t = none := by
  induction l generalizing cs with
  | nil => exact h
  | cons b l ih =>
    rw [List.foldl_cons]
    apply ih
    by_cases hbt : t = b
    · subst hbt
      exact getCursor_delCursor_self cs t
    · rw [getCursor_delCursor_ne hbt]
      exact h

/-- Folding deletions over a list containing `t` leaves no cursor for
`t`. -/
theorem getCursor_foldl_delCursor {l : List String} {cs : Cursors} {t : String}
    (h : t ∈ l) : getCursor (l.foldl delCursor cs) t = none := by
  induction l generalizing cs with
  | nil => simp at h
  | cons a l ih =>
    rw [List.foldl_cons]
    by_cases hmem : t ∈ l
    · exact ih hmem
    · have hta : t = a := by
        rcases List.mem_cons.mp h with h | h
        · exact h
        · exact absurd h hmem
      subst hta
      exact getCursor_foldl_delCursor_none (getCursor_delCursor_self cs t)

/-- C1: for every backfill invocation and every ticker still needing
history, the requested chunk is
`[max(requiredStart, chunkEnd − chunkSize + 1), chunkEnd]` where
`chunkEnd` is the valid persisted cursor if present, else (existing min
coverage date − 1) if data exists, else (today − 1) — this is
`chunkEndOf`; and concretely (requiredStart = day 1 = 2025-01-01,
today = day 10 = 2025-01-10, chunk size 5, no data or cursor):
invocation 1 requests days [5, 9] = [2025-01-05, 2025-01-09] and persists
cursor day 4 = 2025-01-04, and invocation 2 requests days [1, 4] =
[2025-01-01, 2025-01-04] and then deletes the cursor. -/
theorem C1_backfill_chunk_request :
    (∀ (cfg : HistCfg) (minHave cursor : Option Int),
        needsYear cfg minHave = true →
        cfg.requiredStart ≤ chunkEndOf cfg minHave cursor →
        chunkDecision cfg minHave cursor =
          ChunkDecision.fetch
            (max cfg.requiredStart (chunkEndOf cfg minHave cursor - cfg.chunkDays + 1))
            (chunkEndOf cfg minHave cursor)) ∧
    scenario1Out1.requests = [("T", 5, 9)] ∧
    getCursor scenario1Out1.cursors "T" = some 4 ∧
    scenario1Out2.requests = [("T", 1, 4)] ∧
    getCursor scenario1Out2.cursors "T" = none := by
  refine ⟨?_, by decide, by decide, by decide, by decide⟩
  intro cfg mh cur hneed hle
  simp only [chunkDecision, hneed, Bool.true_eq_false, if_false, if_neg (not_lt.mpr hle)]
  have hmax : (if chunkEndOf cfg mh cur - (cfg.chunkDays - 1) < cfg.requiredStart then
      cfg.requiredStart else chunkEndOf cfg mh cur - (cfg.chunkDays - 1)) =
      max cfg.requiredStart (chunkEndOf cfg mh cur - cfg.chunkDays + 1) := by
    split_ifs with h <;> omega
  rw [hmax]

/-- Witness for C1: the formula instantiated at the scenario's first
invocation (no data, no cursor) yields the request [5, 9]. -/
theorem C1_backfill_chunk_request_witness :
    chunkDecision scenario1Cfg none none = ChunkDecision.fetch 5 9 := by
  have h := C1_backfill_chunk_request.1 scenario1Cfg none none (by decide) (by decide)
  rw [h]
  simp only [ChunkDecision.fetch.injEq]
  constructor <;> decide

/-- C2 counterexample: with the store holding only day 9 for `T`
(requiredStart 1, today 10, chunk size 5, no cursor) and a range fetch
that returns nothing, the invocation ingests zero rows (the re-emitted
table equals the input rows) — but the persisted cursor is NOT left
unchanged: it goes from absent to day 3, and the next invocation requests
[1, 3] instead of the same chunk [4, 8] again. -/
theorem C2_counterexample :
    emptyFetchOut1.finalRows = emptyFetchInp1.rows ∧
    getCursor emptyFetchInp1.cursors "T" = none ∧
    getCursor emptyFetchOut1.cursors "T" = some 3 ∧
    emptyFetchOut1.requests = [("T", 4, 8)] ∧
    emptyFetchOut2.requests = [("T", 1, 3)] := by
  refine ⟨by decide, by decide, by decide, by decide, by decide⟩

/-- A fetch request recorded by `processTicker` is the decision of
`chunkDecision`. -/
theorem processTicker_req {cfg : HistCfg} {t : String}
    {orc : Int → Int → List (Int × Rat)} {minHave cursor : Option Int} {m : KVMap}
    {s e : Int} (h : (processTicker cfg t orc minHave cursor m).2.2 = some (s, e)) :
    chunkDecision cfg minHave cursor = ChunkDecision.fetch s e := by
  unfold processTicker at h
  cases hcd : chunkDecision cfg minHave cursor with
  | notNeeded => rw [hcd] at h; simp at h
  | completeDeleteCursor => rw [hcd] at h; simp at h
  | fetch s2 e2 =>
    rw [hcd] at h
    dsimp only at h
    injection h with hpair
    cases hpair
    rfl

/-- What a `fetch s e` decision says about its bounds (lines 247–256):
`e` is the computed `chunkEnd`, both ends lie at or after
`requiredStart`, and `s` is either `requiredStart` or the tentative
start `e − (CHUNK_DAYS − 1)`. -/
theorem chunkDecision_fetch_facts {cfg : HistCfg} {minHave cursor : Option Int}
    {s e : Int} (h : chunkDecision cfg minHave cursor = ChunkDecision.fetch s e) :
    e = chunkEndOf cfg minHave cursor ∧ cfg.requiredStart ≤ e ∧
      cfg.requiredStart ≤ s ∧
      (s = cfg.requiredStart ∨ s = e - (cfg.chunkDays - 1)) := by
  unfold chunkDecision at h
  dsimp only at h
  split_ifs at h with h1 h2 h3
  · injection h with hs he
    exact ⟨he.symm, by omega, by omega, Or.inl (by omega)⟩
  · injection h with hs he
    exact ⟨he.symm, by omega, by omega, Or.inr (by omega)⟩

/-- C2 as amended: a range fetch with no usable rows ingests zero rows
(the dedupe map is unchanged), but the persisted cursor is NOT left
unchanged — it is advanced exactly as on success, to `nextCursor` of the
chunk start, i.e. `chunkStart − 1` (persisted if `≥ requiredStart`, else
deleted).  The exact-retry guarantee therefore fails in general: while
the advanced cursor is persisted, the next chunk fetched for the ticker
ends at `chunkStart − 1`, strictly before the failed chunk's end, so the
failed range is skipped; when the cursor is deleted (a failed final
chunk) the next request is recomputed from coverage alone and can be the
identical chunk again — verified concretely below (min coverage day 3,
cursor day 2, requiredStart day 1: both invocations request [1, 2]). -/
theorem C2_empty_fetch_advances_cursor :
    (∀ (cfg : HistCfg) (t : String) (vals : List (Int × Rat)) (m : KVMap),
        (∀ v ∈ vals, ¬(cfg.requiredStart ≤ v.1 ∧ v.1 < cfg.today)) →
        ingestBackfillChunk_ cfg t vals m = m) ∧
    (∀ (cfg : HistCfg) (t : String) (orc : Int → Int → List (Int × Rat))
        (minHave cursor : Option Int) (m : KVMap) (s e : Int),
        (processTicker cfg t orc minHave cursor m).2.2 = some (s, e) →
        (processTicker cfg t orc minHave cursor m).2.1 = nextCursor cfg s) ∧
    (∀ (cfg : HistCfg) (t : String) (orc : Int → Int → List (Int × Rat))
        (minHave cursor : Option Int) (m : KVMap) (s e d : Int),
        1 ≤ cfg.chunkDays →
        (processTicker cfg t orc minHave cursor m).2.2 = some (s, e) →
        nextCursor cfg s = some d →
        ∀ (t2 : String) (orc2 : Int → Int → List (Int × Rat)) (minHave2 : Option Int)
          (m2 : KVMap) (s2 e2 : Int),
          (processTicker cfg t2 orc2 minHave2 (some d) m2).2.2 = some (s2, e2) →
          e2 = s - 1 ∧ e2 < e) ∧
    (retryOut1.requests = [("T", 1, 2)] ∧
      getCursor retryOut1.cursors "T" = none ∧
      retryOut1.finalRows = retryInp1.rows ∧
      retryOut2.requests = [("T", 1, 2)]) := by
  refine ⟨?_, ?_, ?_, by decide, by decide, by decide, by decide⟩
  · intro cfg t vals m hout
    unfold ingestBackfillChunk_
    induction vals generalizing m with
    | nil => rfl
    | cons v vs ih =>
      have hv : ¬(cfg.requiredStart ≤ v.1 ∧ v.1 < cfg.today) :=
        hout v (List.mem_cons_self v vs)
      simp only [List.foldl_cons, if_neg hv]
      exact ih m (fun w hw => hout w (List.mem_cons_of_mem v hw))
  · intro cfg t orc mh cur m s e hreq
    unfold processTicker at *
    cases hcd : chunkDecision cfg mh cur with
    | notNeeded => rw [hcd] at hreq; simp at hreq
    | completeDeleteCursor => rw [hcd] at hreq; simp at hreq
    | fetch s2 e2 =>
      rw [hcd] at hreq
      dsimp only at hreq ⊢
      injection hreq with hpair
      cases hpair
      rfl
  · intro cfg t orc mh cur m s e d hk hreq1 hnc t2 orc2 mh2 m2 s2 e2 hreq2
    obtain ⟨hf1e, hf1re, hf1rs, hf1s⟩ := chunkDecision_fetch_facts (processTicker_req hreq1)
    obtain ⟨hf2e, _, _, _⟩ := chunkDecision_fetch_facts (processTicker_req hreq2)
    have he2 : e2 = d := by
      rw [hf2e]
      rfl
    have hd : d = s - 1 := by
      unfold nextCursor at hnc
      dsimp only at hnc
      split_ifs at hnc with h4
      injection hnc with h5
      exact h5.symm
    have hse : s ≤ e := by
      rcases hf1s with h | h <;> omega
    exact ⟨by omega, by omega⟩

/-- Witness for C2's amended statement: an empty fetch leaves the map
unchanged; the cursor after the fetch of chunk [4, 8] is `nextCursor` of
its start (= day 3); and the next chunk fetched from that persisted
cursor ends at day 3 = 4 − 1, strictly before day 8. -/
theorem C2_empty_fetch_advances_cursor_witness :
    ingestBackfillChunk_ scenario1Cfg "T" [] [] = [] ∧
    (processTicker scenario1Cfg "T" (fun _ _ => []) (some 9) none []).2.1 =
      nextCursor scenario1Cfg 4 ∧
    ((3 : Int) = 4 - 1 ∧ (3 : Int) < 8) := by
  refine ⟨C2_empty_fetch_advances_cursor.1 scenario1Cfg "T" [] [] (by simp),
    C2_empty_fetch_advances_cursor.2.1 scenario1Cfg "T" (fun _ _ => [])
      (some 9) none [] 4 8 (by decide), ?_⟩
  exact C2_empty_fetch_advances_cursor.2.2.1 scenario1Cfg "T" (fun _ _ => [])
    (some 9) none [] 4 8 3 (by decide) (by decide) (by decide) "T" (fun _ _ => [])
    (some 9) [] 1 3 (by decide)

/-- C6: whenever a backfill chunk is processed for a ticker that already
has a persisted cursor `c`, the cursor afterwards is either deleted or a
strictly earlier date (given a positive configured chunk size, as the
shipped `CHUNK_DAYS = 180`) — the cursor strictly decreases across
successive invocations until deleted. -/
theorem C6_cursor_strictly_decreases (cfg : HistCfg) (t : String)
    (orc : Int → Int → List (Int × Rat)) (minHave : Option Int) (c : Int) (m : KVMap)
    (hk : 1 ≤ cfg.chunkDays)
    (hreq : (processTicker cfg t orc minHave (some c) m).2.2.isSome = true) :
    (processTicker cfg t orc minHave (some c) m).2.1 = none ∨
      ∃ c2, (processTicker cfg t orc minHave (some c) m).2.1 = some c2 ∧ c2 < c := by
  unfold processTicker at *
  cases hcd : chunkDecision cfg minHave (some c) with
  | notNeeded => rw [hcd] at hreq; simp at hreq
  | completeDeleteCursor => rw [hcd] at hreq; simp at hreq
  | fetch s e =>
    have hs : s ≤ c := by
      unfold chunkDecision chunkEndOf at hcd
      dsimp only at hcd
      split_ifs at hcd with h1 h2 h3
      · injection hcd with hs1 hs2
        omega
      · injection hcd with hs1 hs2
        omega
    dsimp only
    simp only [nextCursor]
    split_ifs with h4
    · exact Or.inr ⟨s - 1, rfl, by omega⟩
    · exact Or.inl rfl

/-- Witness for C6: with cursor day 4 (requiredStart 1, chunk size 5),
the chunk [1, 4] is processed and the cursor is deleted. -/
theorem C6_cursor_strictly_decreases_witness :
    (processTicker scenario1Cfg "T" (fun _ _ => []) (some 5) (some 4) []).2.1 = none ∨
      ∃ c2, (processTicker scenario1Cfg "T" (fun _ _ => []) (some 5) (some 4) []).2.1 =
        some c2 ∧ c2 < 4 :=
  C6_cursor_strictly_decreases scenario1Cfg "T" (fun _ _ => []) (some 5) 4 []
    (by decide) (by decide)

/-- C9: the Pearson computation is division-safe — whenever either
series has zero variance (either factor of the product-moment denominator
is zero), `pearson_` reports `none` (rendered `"N/A"`), never a numeric
value: the division is not performed. -/
theorem C9_pearson_zero_variance_undefined (x y : List Rat)
    (h : ((min x.length y.length : Nat) : Rat) *
          ((x.take (min x.length y.length)).map (fun a => a * a)).sum -
          (x.take (min x.length y.length)).sum * (x.take (min x.length y.length)).sum = 0 ∨
        ((min x.length y.length : Nat) : Rat) *
          ((y.take (min x.length y.length)).map (fun a => a * a)).sum -
          (y.take (min x.length y.length)).sum * (y.take (min x.length y.length)).sum = 0) :
    pearson_ x y = none := by
  simp only [pearson_]
  split_ifs with h1 h2
  · rfl
  · rfl
  · exfalso
    apply h2
    rcases h with h | h
    · rw [h, zero_mul]
    · rw [h, mul_zero]

/-- Witness for C9: the constant series [1, 1] has zero variance, so the
correlation against [1, 2] is undefined. -/
theorem C9_pearson_zero_variance_undefined_witness :
    pearson_ [1, 1] [1, 2] = none :=
  C9_pearson_zero_variance_undefined [1, 1] [1, 2]
    (Or.inl (by norm_num))

/-- C3: if the selected base row of the performance ledger has a
non-numeric or non-positive portfolio value, or any base-row benchmark
price cell is non-numeric or non-positive, the ledger update aborts with
an error and the persisted ledger content is left completely unchanged —
the read-modify-write is all-or-nothing. -/
theorem C3_invalid_base_aborts_unchanged (n : Nat) (dateStr : Int) (portfolioVal : Rat)
    (benchPrices : List Rat) (chartStart : Option Int) (old : List LRow)
    (hbad : ∀ r,
        (ledgerData n dateStr portfolioVal benchPrices old).get?
          (ledgerBaseIndex chartStart (ledgerData n dateStr portfolioVal benchPrices old)) =
          some r →
        invalidBase n r) :
    (∃ msg, upsertAndRecomputePerformanceLog_ n dateStr portfolioVal benchPrices chartStart old
        = .error msg) ∧
    ledgerFileAfter n dateStr portfolioVal benchPrices chartStart old = old := by
  have herr : ∃ msg,
      upsertAndRecomputePerformanceLog_ n dateStr portfolioVal benchPrices chartStart old
        = .error msg := by
    unfold upsertAndRecomputePerformanceLog_
    dsimp only
    cases hget : (ledgerData n dateStr portfolioVal benchPrices old).get?
        (ledgerBaseIndex chartStart (ledgerData n dateStr portfolioVal benchPrices old)) with
    | none => exact ⟨_, rfl⟩
    | some r =>
      dsimp only
      have hb := hbad r hget
      cases hpv : r.pv with
      | none => exact ⟨_, rfl⟩
      | some v =>
        dsimp only
        by_cases hv : v ≤ 0
        · rw [if_pos hv]
          exact ⟨_, rfl⟩
        · rw [if_neg hv]
          rcases hb with hb | ⟨i, hin, hw⟩
          · exact absurd (hb v hpv) hv
          · have hany : ((List.range n).map (fun j => r.bench.getD j none)).any
                (fun o => o.isNone || decide (o.getD 0 ≤ 0)) = true := by
              rw [List.any_eq_true]
              refine ⟨r.bench.getD i none,
                List.mem_map.mpr ⟨i, List.mem_range.mpr hin, rfl⟩, ?_⟩
              cases ho : r.bench.getD i none with
              | none => simp
              | some w =>
                have hwle := hw w ho
                simp only [Option.isNone_some, Option.getD_some, Bool.false_or,
                  decide_eq_true_eq]
                exact hwle
            rw [if_pos hany]
            exact ⟨_, rfl⟩
  refine ⟨herr, ?_⟩
  obtain ⟨msg, hm⟩ := herr
  unfold ledgerFileAfter
  rw [hm]

/-- Witness for C3: a run whose fresh (and only, hence base) row has
portfolio value 0 aborts, and the previously persisted (empty) ledger is
unchanged. -/
theorem C3_invalid_base_aborts_unchanged_witness :
    (∃ msg, upsertAndRecomputePerformanceLog_ 1 1 0 [5] none [] = .error msg) ∧
    ledgerFileAfter 1 1 0 [5] none [] = [] := by
  refine C3_invalid_base_aborts_unchanged 1 1 0 [5] none [] ?_
  intro r hr
  rw [show (ledgerData 1 1 0 [5] []).get? (ledgerBaseIndex none (ledgerData 1 1 0 [5] [])) =
    some (LRow.mk (some 1) (some 0) [some 5] none [none] [none]) from rfl] at hr
  injection hr with hr
  subst hr
  left
  intro v hv
  injection hv with hv
  subst hv
  exact le_refl 0

/-- The base-benchmark validation of line 650, read off the failed
`any`: every one of the first `n` benchmark cells of the base row is a
finite, strictly positive number. -/
theorem baseB_cell_pos (n : Nat) (r : LRow)
    (hany : ¬ ((List.range n).map (fun j => r.bench.getD j none)).any
        (fun o => o.isNone || decide (o.getD 0 ≤ 0)) = true)
    (i : Nat) (hi : i < n) :
    ∃ w, r.bench.getD i none = some w ∧ 0 < w := by
  have hmem : r.bench.getD i none ∈ (List.range n).map (fun j => r.bench.getD j none) :=
    List.mem_map.mpr ⟨i, List.mem_range.mpr hi, rfl⟩
  cases ho : r.bench.getD i none with
  | none =>
    exfalso
    apply hany
    rw [List.any_eq_true]
    exact ⟨r.bench.getD i none, hmem, by rw [ho]; simp⟩
  | some w =>
    refine ⟨w, rfl, ?_⟩
    by_contra hle
    apply hany
    rw [List.any_eq_true]
    refine ⟨r.bench.getD i none, hmem, ?_⟩
    rw [ho]
    simp only [Option.isNone_some, Option.getD_some, Bool.false_or, decide_eq_true_eq]
    exact le_of_not_lt hle

/-- C4: after every successful ledger recomputation, the base row's
`PortfolioPct` and each of its `Pct_<baseline>` cells equal 0, and every
row strictly before the base row has the not-applicable marker in
`PortfolioPct`, in every `Pct_<baseline>` cell and in every
`Diff_<baseline>` cell. -/
theorem C4_rebase_invariant (n : Nat) (dateStr : Int) (portfolioVal : Rat)
    (benchPrices : List Rat) (chartStart : Option Int) (old : List LRow) (out : List LRow)
    (hok : upsertAndRecomputePerformanceLog_ n dateStr portfolioVal benchPrices chartStart old
        = .ok out) :
    (∃ b, out.get?
        (ledgerBaseIndex chartStart (ledgerData n dateStr portfolioVal benchPrices old)) =
        some b ∧ b.portPct = some 0 ∧ ∀ i, i < n → b.pcts.getD i none = some 0) ∧
    (∀ ri r, ri < ledgerBaseIndex chartStart (ledgerData n dateStr portfolioVal benchPrices old) →
        out.get? ri = some r →
        r.portPct = none ∧ ∀ i, i < n →
          r.pcts.getD i none = none ∧ r.diffs.getD i none = none) := by
  unfold upsertAndRecomputePerformanceLog_ at hok
  dsimp only at hok
  cases hget : (ledgerData n dateStr portfolioVal benchPrices old).get?
      (ledgerBaseIndex chartStart (ledgerData n dateStr portfolioVal benchPrices old)) with
  | none =>
    rw [hget] at hok
    cases hok
  | some baseRow =>
    rw [hget] at hok
    dsimp only at hok
    cases hpv : baseRow.pv with
    | none =>
      rw [hpv] at hok
      cases hok
    | some v =>
      rw [hpv] at hok
      dsimp only at hok
      split_ifs at hok with hv hany
      have hvpos : 0 < v := lt_of_not_le hv
      injection hok with hok
      subst hok
      constructor
      · refine ⟨recomputeRow n
          (ledgerBaseIndex chartStart (ledgerData n dateStr portfolioVal benchPrices old)) v
          (((List.range n).map (fun i => baseRow.bench.getD i none)).map (fun o => o.getD 0))
          (ledgerBaseIndex chartStart (ledgerData n dateStr portfolioVal benchPrices old))
          baseRow, ?_, ?_, ?_⟩
        · rw [get?_mapIdxFrom, Nat.zero_add, hget]
          rfl
        · simp only [recomputeRow, hpv, if_pos hvpos, lt_irrefl, if_false]
          rw [div_self (ne_of_gt hvpos)]
          norm_num
        · intro i hi
          obtain ⟨w, hwcell, hwpos⟩ := baseB_cell_pos n baseRow hany i hi
          have hbB :
              (((List.range n).map (fun j => baseRow.bench.getD j none)).map
                (fun o => o.getD 0)).getD i 0 = w := by
            rw [List.map_map, getD_range_map _ n i 0 hi]
            show (baseRow.bench.getD i none).getD 0 = w
            rw [hwcell]
            rfl
          simp only [recomputeRow]
          rw [getD_range_map _ n i none hi]
          rw [if_neg (lt_irrefl _), hwcell]
          dsimp only
          rw [if_pos hwpos, hbB, div_self (ne_of_gt hwpos)]
          norm_num
      · intro ri r hri hr
        rw [get?_mapIdxFrom, Nat.zero_add] at hr
        cases hgr : (ledgerData n dateStr portfolioVal benchPrices old).get? ri with
        | none =>
          rw [hgr] at hr
          cases hr
        | some a =>
          rw [hgr] at hr
          injection hr with hr
          subst hr
          refine ⟨?_, ?_⟩
          · simp [recomputeRow, hri]
          · intro i hi
            constructor
            · simp only [recomputeRow]
              rw [getD_range_map _ n i none hi]
              simp [hri]
            · simp only [recomputeRow]
              rw [getD_range_map _ n i none hi]
              simp [hri]

/-- After the purge filter, every surviving row with a nonempty
normalised ticker has its normalised ticker in the required set (when
nothing is purged this is because every existing ticker was required). -/
theorem rows_ticker_required {required : List String} {inp : HistInput} {r : HRow}
    (hr : r ∈ histRows required inp) (hne : normTicker r.ticker ≠ "") :
    normTicker r.ticker ∈ required := by
  unfold histRows at hr
  by_cases hp : (histPurged required inp).isEmpty
  · rw [if_pos hp] at hr
    have hnil : histPurged required inp = [] := List.isEmpty_iff.mp hp
    unfold histPurged at hnil
    have hall := List.filter_eq_nil_iff.mp hnil
    have hmem : normTicker r.ticker ∈ histExisting inp := by
      unfold histExisting
      rw [List.mem_dedup]
      exact List.mem_filter.mpr ⟨List.mem_map.mpr ⟨r, hr, rfl⟩, by simpa using hne⟩
    have := hall _ hmem
    simpa using this
  · rw [if_neg hp] at hr
    have := (List.mem_filter.mp hr).2
    simpa using this

/-- The dedupe map as loaded (line 218) is well formed. -/
theorem mapOK_histMap0 (required : List String) (inp : HistInput) :
    MapOK required (histMap0 required inp) := by
  constructor
  · intro e he
    unfold histMap0 at he
    obtain ⟨r, hr, heq, hne⟩ := mem_buildMap he
    subst heq
    exact ⟨rows_ticker_required hr hne, rfl, rfl⟩
  · exact nodup_keys_buildMap _

/-- The dedupe map stays well formed through the whole backfill loop. -/
theorem mapOK_histAcc (cfg : HistCfg) (required : List String) (inp : HistInput)
    (hnorm : ∀ t ∈ required, normTicker t = t) :
    MapOK required (histAcc cfg required inp).map := by
  unfold histAcc
  refine foldl_induction _ required.enum _ (fun acc : LoopAcc => MapOK required acc.map)
    (mapOK_histMap0 required inp) ?_
  intro acc p hp hacc
  unfold loopStep
  by_cases hb : inp.overBudget p.1 = true
  · rw [if_pos hb]
    exact hacc
  · rw [if_neg hb]
    dsimp only
    have ht : p.2 ∈ required := snd_mem_of_mem_enumFrom hp
    exact mapOK_processTicker hacc ht (hnorm _ ht)

/-- The dedupe map stays well formed through the live-quote merge. -/
theorem mapOK_histMap2 (cfg : HistCfg) (required : List String) (inp : HistInput)
    (hnorm : ∀ t ∈ required, normTicker t = t) :
    MapOK required (histMap2 cfg required inp) := by
  unfold histMap2
  refine foldl_induction _ required _ (MapOK required)
    (mapOK_histAcc cfg required inp hnorm) ?_
  intro m t ht hm
  dsimp only
  by_cases hp : 0 < inp.live t
  · rw [if_pos hp]
    exact mapOK_insertKV hm ht ⟨rfl, hnorm t ht⟩
  · rw [if_neg hp]
    exact hm

/-- A purged ticker's cursor, deleted before the loop, stays deleted:
the loop only touches cursors of required tickers. -/
theorem cursors_purged_deleted (cfg : HistCfg) (required : List String) (inp : HistInput)
    (t : String) (ht : t ∈ histPurged required inp) :
    getCursor (histAcc cfg required inp).cursors t = none := by
  have htreq : t ∉ required := by
    unfold histPurged at ht
    have h2 := (List.mem_filter.mp ht).2
    simpa using h2
  have h0 : getCursor (histCursors0 required inp) t = none := by
    unfold histCursors0
    exact getCursor_foldl_delCursor ht
  unfold histAcc
  refine foldl_induction _ required.enum _
    (fun acc : LoopAcc => getCursor acc.cursors t = none) h0 ?_
  intro acc p hp hacc
  unfold loopStep
  by_cases hb : inp.overBudget p.1 = true
  · rw [if_pos hb]
    exact hacc
  · rw [if_neg hb]
    dsimp only
    have htp : p.2 ∈ required := snd_mem_of_mem_enumFrom hp
    have hne : t ≠ p.2 := fun h => htreq (h ▸ htp)
    cases (processTicker cfg p.2 (inp.oracle p.2)
        (minDateFor (histMap0 required inp) p.2) (getCursor acc.cursors p.2) acc.map).2.1 with
    | some d =>
      rw [getCursor_setCursor_ne hne]
      exact hacc
    | none =>
      rw [getCursor_delCursor_ne hne]
      exact hacc

/-- One loop step never removes a ticker from the unfinished list. -/
theorem unfinished_mono_step (cfg : HistCfg) (bounds : String → Option Int)
    (inp : HistInput) (acc : LoopAcc) (p : Nat × String) {t : String}
    (h : t ∈ acc.unfinished) : t ∈ (loopStep cfg bounds inp acc p).unfinished := by
  unfold loopStep
  by_cases hb : inp.overBudget p.1 = true
  · rw [if_pos hb]
    exact List.mem_append_left _ h
  · rw [if_neg hb]
    exact h

/-- The whole loop never removes a ticker from the unfinished list. -/
theorem unfinished_mono_foldl (cfg : HistCfg) (bounds : String → Option Int)
    (inp : HistInput) (l : List (Nat × String)) (acc : LoopAcc) {t : String}
    (h : t ∈ acc.unfinished) :
    t ∈ (l.foldl (loopStep cfg bounds inp) acc).unfinished := by
  induction l generalizing acc with
  | nil => exact h
  | cons p l ih =>
    rw [List.foldl_cons]
    exact ih _ (unfinished_mono_step cfg bounds inp acc p h)

/-- A ticker whose iteration runs over budget ends up unfinished. -/
theorem unfinished_hit (cfg : HistCfg) (bounds : String → Option Int)
    (inp : HistInput) (l : List (Nat × String)) (acc : LoopAcc) (i : Nat) (t : String)
    (hmem : (i, t) ∈ l) (hb : inp.overBudget i = true) :
    t ∈ (l.foldl (loopStep cfg bounds inp) acc).unfinished := by
  induction l generalizing acc with
  | nil => simp at hmem
  | cons p l ih =>
    rw [List.foldl_cons]
    rcases List.mem_cons.mp hmem with h | h
    · apply unfinished_mono_foldl
      rw [← h]
      unfold loopStep
      rw [if_pos hb]
      exact List.mem_append_right _ (List.mem_singleton.mpr rfl)
    · exact ih _ h

/-- C10 (implicit): once the wall-clock budget is exhausted, every
required ticker not yet reached in iteration order is reported in the
unfinished diagnostic — including tickers whose coverage is complete —
because the budget check of line 238 runs before the needs-more-history
check of line 241. -/
theorem C10_budget_marks_remaining_unfinished (cfg : HistCfg) (required : List String)
    (inp : HistInput) (i : Nat) (t : String)
    (hget : required.get? i = some t) (hb : inp.overBudget i = true) :
    t ∈ (updateHistDatabase_ cfg required inp).unfinished := by
  unfold updateHistDatabase_
  dsimp only
  unfold histAcc
  apply unfinished_hit _ _ _ _ _ i t _ hb
  have hmem := mem_enumFrom_of_get? (n := 0) hget
  simpa using hmem

/-- Witness for C10: with the budget exhausted from the start, ticker A
is reported unfinished even though its coverage is already complete
(min date 1 = requiredStart 1, so no fetch would have been needed). -/
theorem C10_budget_marks_remaining_unfinished_witness :
    "A" ∈ (updateHistDatabase_ purgeCfg ["A"] budgetInp).unfinished :=
  C10_budget_marks_remaining_unfinished purgeCfg ["A"] budgetInp 0 "A"
    (by decide) (by decide)

/-- C5: after every store update, every price row of the re-emitted
historical table has a (normalised) ticker in the current required set,
and every purged ticker's persisted cursor is deleted.  The hypothesis
states that required tickers are given in normalised form, as the caller
constructs them (lines 97–103). -/
theorem C5_purge_invariant (cfg : HistCfg) (required : List String) (inp : HistInput)
    (hnorm : ∀ t ∈ required, normTicker t = t) :
    (∀ r ∈ (updateHistDatabase_ cfg required inp).finalRows,
        normTicker r.ticker ∈ required) ∧
    (∀ t ∈ (updateHistDatabase_ cfg required inp).purgedTickers,
        getCursor (updateHistDatabase_ cfg required inp).cursors t = none) := by
  constructor
  · intro r hr
    unfold updateHistDatabase_ at hr
    dsimp only at hr
    have hperm := List.perm_insertionSort (fun a b => rowLeB a b = true)
      ((histMap2 cfg required inp).map (fun e => e.2))
    have hr2 : r ∈ (histMap2 cfg required inp).map (fun e => e.2) :=
      hperm.mem_iff.mp hr
    obtain ⟨e, he, heq⟩ := List.mem_map.mp hr2
    have hOK := (mapOK_histMap2 cfg required inp hnorm).1 e he
    rw [← heq, hOK.2.2]
    exact hOK.1
  · intro t ht
    unfold updateHistDatabase_ at ht ⊢
    dsimp only at ht ⊢
    exact cursors_purged_deleted cfg required inp t ht

/-- Witness for C5: the store holds A, B, C (B with a cursor), the
required set becomes just A, C — afterwards every emitted row's ticker is
in the required set and B's cursor is gone. -/
theorem C5_purge_invariant_witness :
    (∀ r ∈ (updateHistDatabase_ purgeCfg ["A", "C"] purgeInp).finalRows,
        normTicker r.ticker ∈ ["A", "C"]) ∧
    (∀ t ∈ (updateHistDatabase_ purgeCfg ["A", "C"] purgeInp).purgedTickers,
        getCursor (updateHistDatabase_ purgeCfg ["A", "C"] purgeInp).cursors t = none) :=
  C5_purge_invariant purgeCfg ["A", "C"] purgeInp (by decide)

/-- C7: after the merge step of every store update, the emitted table
has at most one price row per (date, normalised ticker) pair, whatever
duplicates the loaded table, the backfilled chunks or the live quote
introduced. -/
theorem C7_dedupe_invariant (cfg : HistCfg) (required : List String) (inp : HistInput)
    (hnorm : ∀ t ∈ required, normTicker t = t) :
    ((updateHistDatabase_ cfg required inp).finalRows.map
      (fun r => (r.date, normTicker r.ticker))).Nodup := by
  unfold updateHistDatabase_
  dsimp only
  have hperm := List.perm_insertionSort (fun a b => rowLeB a b = true)
    ((histMap2 cfg required inp).map (fun e => e.2))
  have hOK := mapOK_histMap2 cfg required inp hnorm
  have hmapped : ((histMap2 cfg required inp).map (fun e => e.2)).map
      (fun r => (r.date, normTicker r.ticker)) = (histMap2 cfg required inp).map Prod.fst := by
    rw [List.map_map]
    apply List.map_congr_left
    intro e he
    have h := hOK.1 e he
    show (e.2.date, normTicker e.2.ticker) = e.1
    rw [h.2.1, h.2.2]
  have hnd : (((histMap2 cfg required inp).map (fun e => e.2)).map
      (fun r => (r.date, normTicker r.ticker))).Nodup := by
    rw [hmapped]
    exact hOK.2
  exact ((hperm.map (fun r => (r.date, normTicker r.ticker))).symm).nodup hnd

/-- Witness for C7: a loaded table with two rows for (day 1, A) is
emitted with at most one row per (date, ticker). -/
theorem C7_dedupe_invariant_witness :
    ((updateHistDatabase_ purgeCfg ["A"] dupInp).finalRows.map
      (fun r => (r.date, normTicker r.ticker))).Nodup :=
  C7_dedupe_invariant purgeCfg ["A"] dupInp (by decide)

/-- C8: for every activated ticker and baseline whose aligned
(intersected, ascending-sorted) window from the stage-entry date has at
least two dates (and both restricted series at least two points), the
result is `ok` with alpha = (last/first − 1) of the ticker series minus
(last/first − 1) of the baseline series, each computed independently —
and concretely, ticker prices [100, 110, 121] and baseline prices
[50, 55, 55] on the same three days from activation yield alpha =
(121/100 − 1) − (55/50 − 1) = 0.11. -/
theorem C8_alpha_total_return_difference :
    (∀ (minCorrReturns : Nat) (rows : List PRow) (ticker bench : String) (start : Int),
        2 ≤ (buildSeries rows start (normTicker ticker)).length →
        2 ≤ (buildSeries rows start (normTicker bench)).length →
        2 ≤ (intersectSortedKeys_ (buildSeries rows start (normTicker ticker))
              (buildSeries rows start (normTicker bench))).length →
        calculateAlphaAndCorrVsBenchmark_ minCorrReturns rows ticker bench (some start) =
          AlphaResult.ok
            (alphaOf (buildSeries rows start (normTicker ticker))
              (buildSeries rows start (normTicker bench)))
            (corrOf minCorrReturns (buildSeries rows start (normTicker ticker))
              (buildSeries rows start (normTicker bench)))) ∧
    calculateAlphaAndCorrVsBenchmark_ 6 scenario8Rows "X" "B" (some 1) =
      AlphaResult.ok (11 / 100) none := by
  constructor
  · intro minCorrReturns rows ticker bench start h1 h2 h3
    unfold calculateAlphaAndCorrVsBenchmark_
    dsimp only
    rw [if_neg (by omega), if_neg (by omega)]
    unfold alphaOf corrOf
    rfl
  · rw [show calculateAlphaAndCorrVsBenchmark_ 6 scenario8Rows "X" "B" (some 1) =
      AlphaResult.ok (((121 : Rat) / 100 - 1) - ((55 : Rat) / 50 - 1)) none from rfl]
    norm_num

/-- Witness for C8: the formula instantiated at the concrete scenario
(hypotheses discharged by evaluation). -/
theorem C8_alpha_total_return_difference_witness :
    calculateAlphaAndCorrVsBenchmark_ 6 scenario8Rows "X" "B" (some 1) =
      AlphaResult.ok
        (alphaOf (buildSeries scenario8Rows 1 (normTicker "X"))
          (buildSeries scenario8Rows 1 (normTicker "B")))
        (corrOf 6 (buildSeries scenario8Rows 1 (normTicker "X"))
          (buildSeries scenario8Rows 1 (normTicker "B"))) :=
  C8_alpha_total_return_difference.1 6 scenario8Rows "X" "B" 1
    (by decide) (by decide) (by decide)

/-- Witness for C4: the concrete successful run behind `c4wOut` (one
benchmark, base row = the only row) satisfies the rebase invariant. -/
theorem C4_rebase_invariant_witness :
    (∃ b, c4wOut.get? (ledgerBaseIndex none (ledgerData 1 5 100 [50] [])) =
        some b ∧ b.portPct = some 0 ∧ ∀ i, i < 1 → b.pcts.getD i none = some 0) ∧
    (∀ ri r, ri < ledgerBaseIndex none (ledgerData 1 5 100 [50] []) →
        c4wOut.get? ri = some r →
        r.portPct = none ∧ ∀ i, i < 1 →
          r.pcts.getD i none = none ∧ r.diffs.getD i none = none) :=
  C4_rebase_invariant 1 5 100 [50] none [] c4wOut rfl

end MWS
